import Mathlib

/-!
Verification of the placement/redistribution core of a distributed-tensor
library.  The pure helpers (`needs_pad`, `wrap`, `unwrap_local_tensor`,
`unwrap_schema`) are embedded directly from `spmd/tensor/utils.py`.  The
redistribution engine and `DTensorSpec.local_shape`, whose defining sources
are not part of the extracted tree (only their tests and callers are), are
modelled from the specification, as marked on each definition.
-/

/-- A local tensor fragment: flattened one-dimensional integer data. -/
abbrev Frag := List Int

/-- Size of shard `i` when an extent `e` is split across `n` ranks with the
even-with-remainder-to-front rule: the first `e % n` shards receive one
extra element, trailing shards may be empty. -/
def shardSize (e n i : Nat) : Nat :=
  e / n + (if i < e % n then 1 else 0)

/-- Start offset of shard `i` inside the global extent under the same rule. -/
def shardOffset (e n i : Nat) : Nat :=
  i * (e / n) + min i (e % n)

/-- The slice of the flattened data `d` that shard `i` of `n` owns. -/
def shardSlice (d : Frag) (n i : Nat) : Frag :=
  (d.drop (shardOffset d.length n i)).take (shardSize d.length n i)

theorem shardOffset_succ (e n i : Nat) :
    shardOffset e n (i + 1) = shardOffset e n i + shardSize e n i := by
  unfold shardOffset shardSize
  rw [Nat.succ_mul]
  by_cases h : i < e % n <;> simp [h] <;> omega

theorem shardOffset_zero (e n : Nat) : shardOffset e n 0 = 0 := by
  simp [shardOffset]

theorem shardOffset_last (e n : Nat) (h : 0 < n) : shardOffset e n n = e := by
  unfold shardOffset
  have h2 : e % n < n := Nat.mod_lt e h
  have h3 := Nat.div_add_mod e n
  omega

theorem sum_shardSize_range (e n m : Nat) :
    ((List.range m).map (shardSize e n)).sum = shardOffset e n m := by
  induction m with
  | zero => simp [shardOffset]
  | succ m ih =>
      rw [List.range_succ, List.map_append, List.sum_append, ih,
        shardOffset_succ]
      simp

/-- The shard sizes of an extent `e` over `n` ranks sum back to `e`:
no elements are lost or duplicated by the split rule. -/
theorem sum_shardSize (e n : Nat) (h : 0 < n) :
    ((List.range n).map (shardSize e n)).sum = e := by
  rw [sum_shardSize_range, shardOffset_last e n h]

theorem flatten_shardSlice_aux (d : Frag) (n : Nat) (h : 0 < n) :
    ∀ m k, k + m = n →
      (((List.range' k m).map (shardSlice d n)).flatten) =
        d.drop (shardOffset d.length n k) := by
  intro m
  induction m with
  | zero =>
      intro k hk
      have hk' : k = n := by omega
      rw [hk', shardOffset_last d.length n h]
      simp
  | succ m ih =>
      intro k hk
      rw [List.range'_succ, List.map_cons, List.flatten_cons,
        ih (k + 1) (by omega)]
      unfold shardSlice
      rw [shardOffset_succ]
      rw [← List.drop_drop]
      exact List.take_append_drop _ _

/-- Concatenating the `n` shard slices of `d` in rank order restores `d`
exactly, uneven boundaries included. -/
theorem flatten_shardSlice (d : Frag) (n : Nat) (h : 0 < n) :
    (((List.range n).map (shardSlice d n)).flatten) = d := by
  have h0 := flatten_shardSlice_aux d n h n 0 (by omega)
  rw [shardOffset_zero, List.drop_zero] at h0
  rw [List.range_eq_range']
  exact h0

/-- `needs_pad` from `spmd/tensor/utils.py`: whether the shard owned by
`rank` is one of the smaller fragments that requires padding, where
`pad_idx` is the index of the first smaller shard (0 for an even split). -/
def needs_pad (rank pad_idx : Int) : Bool :=
  pad_idx != 0 && decide (rank ≥ pad_idx)

/-- A raw local `torch.Tensor`: flattened data plus its autograd flag. -/
structure LTensor where
  data : Frag
  requires_grad : Bool
deriving DecidableEq, Repr

/-- Modelled from the spec: a `Placement` along the single mesh axis of the
model, for one-dimensional tensor data: `shard` is Shard(0), `replicate` is
Replicate, `psum` is Partial with the sum reduction operator. -/
inductive Placement where
  | shard
  | replicate
  | psum
deriving DecidableEq, Repr

/-- Modelled from the spec: `DTensorSpec` binds the device mesh (a single
axis with `mesh` ranks in this model), one placement per mesh axis, and the
global shape (the length of the flattened one-dimensional data). -/
structure DTensorSpec where
  mesh : Nat
  placements : List Placement
  shape : Nat
deriving DecidableEq, Repr

/-- One worker's view of a distributed tensor: the local fragment together
with its spec (the source constructor receives `spec.mesh`,
`spec.placements` and `size=spec.shape` and stores them in `_spec`), plus
the autograd flag forwarded by `wrap`. -/
structure DTensor where
  local_tensor : LTensor
  spec : DTensorSpec
  requires_grad : Bool
deriving DecidableEq, Repr

/-- A raw result of a local operation as classified by `wrap`: a single
tensor, a list of tensors, a tuple of tensors, or a non-tensor value. -/
inductive Res where
  | tensor (t : LTensor)
  | rlist (ts : List LTensor)
  | rtuple (ts : List LTensor)
  | nonTensor (v : Int)
deriving DecidableEq, Repr

/-- `OutputSpecType` as consumed by `wrap`: a single `DTensorSpec`, a list
or tuple of specs, or `None`. -/
inductive OutSpec where
  | dspec (s : DTensorSpec)
  | slist (ss : List DTensorSpec)
  | stuple (ss : List DTensorSpec)
  | none
deriving DecidableEq, Repr

/-- The value returned by `wrap`. -/
inductive WrapOut where
  | single (d : DTensor)
  | wlist (ds : List DTensor)
  | wtuple (ds : List DTensor)
  | passthrough (r : Res)
deriving DecidableEq, Repr

/-- A Python `AssertionError` as raised by the failed asserts in `wrap`. -/
inductive PyErr where
  | assertionError
deriving DecidableEq, Repr

/-- `wrap` from `spmd/tensor/utils.py`: a tensor result with a
`DTensorSpec` becomes one `DTensor` carrying the spec's mesh, placements
and shape and the tensor's `requires_grad`; a list (resp. tuple) result
with a list (resp. tuple) spec is paired elementwise by `zip` into
`DTensor`s (`requires_grad` not forwarded there, hence `false`); any other
result is returned unchanged; a kind mismatch fails the `assert`. -/
def wrap (res : Res) (spec : OutSpec) : Except PyErr WrapOut :=
  match res with
  | .tensor t =>
      match spec with
      | .dspec s => .ok (.single ⟨t, s, t.requires_grad⟩)
      | _ => .error .assertionError
  | .rlist ts =>
      match spec with
      | .slist ss =>
          .ok (.wlist ((List.zip ts ss).map fun p => ⟨p.1, p.2, false⟩))
      | _ => .error .assertionError
  | .rtuple ts =>
      match spec with
      | .stuple ss =>
          .ok (.wtuple ((List.zip ts ss).map fun p => ⟨p.1, p.2, false⟩))
      | _ => .error .assertionError
  | .nonTensor v => .ok (.passthrough (.nonTensor v))

/-- A Python object as seen by the unwrap helpers: a `DTensor`, a raw
tensor, a spec, or any other object. -/
inductive PyObj where
  | dt (d : DTensor)
  | tens (t : LTensor)
  | spec (s : DTensorSpec)
  | obj (v : Int)
deriving DecidableEq, Repr

/-- `unwrap_local_tensor` from `spmd/tensor/utils.py`: project a `DTensor`
to its `_local_tensor`, leave anything else unchanged. -/
def unwrap_local_tensor (e : PyObj) : PyObj :=
  match e with
  | .dt d => .tens d.local_tensor
  | x => x

/-- `unwrap_schema` from `spmd/tensor/utils.py`: project a `DTensor` to its
`_spec`, leave anything else unchanged. -/
def unwrap_schema (e : PyObj) : PyObj :=
  match e with
  | .dt d => .spec d.spec
  | x => x

/-- Elementwise sum of two fragments (the pointwise add used by the
reduction collectives). -/
def addT (a b : Frag) : Frag := List.zipWith (· + ·) a b

/-- Combine of a collection of per-rank contributions, as all-reduce with
the sum operator would: the elementwise sum over the (nonempty) list. -/
def sumFrags (l : List Frag) : Frag :=
  match l with
  | [] => []
  | t :: ts => ts.foldl addT t

/-- Modelled from the spec: the collective operations the redistribute
engine may issue along the mesh axis. -/
inductive Collective where
  | allGather
  | allReduce
  | reduceScatter
deriving DecidableEq, Repr

/-- Modelled from the spec: the error taxonomy of the redistribute engine:
`SpecMismatchError` for a placement-list length (or shape) mismatch,
`UnsupportedTransitionError` for a placement-pair transition that is not
representable. -/
inductive RErr where
  | specMismatch
  | unsupportedTransition
deriving DecidableEq, Repr

/-- Modelled from the spec: the whole-system state of one distributed
tensor on a one-axis device mesh: worker `i` holds local fragment
`frags[i]`, and every worker shares `spec`. -/
structure DState where
  frags : List Frag
  spec : DTensorSpec
deriving DecidableEq, Repr

/-- The number of mesh dimensions; the model fixes a one-axis mesh. -/
def DTensorSpec.meshRank (_ : DTensorSpec) : Nat := 1

/-- Well-formedness of a distributed state: one fragment per rank, one
placement per mesh axis, and a nonempty mesh axis. -/
def DState.wf (x : DState) : Prop :=
  x.frags.length = x.spec.mesh ∧
    x.spec.placements.length = x.spec.meshRank ∧ 0 < x.spec.mesh

/-- Modelled from the spec: the logical global tensor a distributed state
represents: concatenation of the fragments in rank order for Shard, the
common copy for Replicate (undefined when the copies disagree), and the
elementwise sum of the contributions for Partial(sum). -/
def reassemble (x : DState) : Option Frag :=
  match x.spec.placements with
  | [.shard] => some x.frags.flatten
  | [.replicate] =>
      match x.frags with
      | [] => none
      | f :: rest => if rest.all (· = f) then some f else none
  | [.psum] =>
      match x.frags with
      | [] => none
      | f :: rest => some (rest.foldl addT f)
  | _ => none

/-- Modelled from the spec: the per-axis transition table of the
redistribute engine for a current/target placement pair on an axis of `n`
ranks.  Shard to Replicate all-gathers and concatenates in rank order;
Replicate to Shard slices each worker's own copy locally by the split
rule; Partial to Replicate all-reduces; Partial to Shard reduce-scatters.
Transitions into Partial are not representable and are refused (the
degenerate Replicate to Partial row has no forward semantics).  Returns
the new per-rank fragments and the collectives issued. -/
def axTransition (n : Nat) (frags : List Frag) :
    Placement → Placement → Option (List Frag × List Collective)
  | .shard, .replicate => some (List.replicate n frags.flatten, [.allGather])
  | .replicate, .shard =>
      some ((List.range n).map fun i => shardSlice (frags.getD i []) n i, [])
  | .psum, .replicate => some (List.replicate n (sumFrags frags), [.allReduce])
  | .psum, .shard =>
      some ((List.range n).map (shardSlice (sumFrags frags) n),
        [.reduceScatter])
  | _, _ => none

/-- Modelled from the spec: `redistribute(dtensor, target_placements)` on
the one-axis mesh.  It fails fast with `SpecMismatchError` and no
communication when the target placement list length differs from the mesh
rank, skips the axis when it already matches the target, and otherwise
applies the transition table.  The second component lists the collectives
issued. -/
def redistribute (x : DState) (target : List Placement) :
    Except RErr DState × List Collective :=
  if target.length ≠ x.spec.meshRank then (.error .specMismatch, [])
  else
    match x.spec.placements, target with
    | [p], [q] =>
        if p = q then (.ok x, [])
        else
          match axTransition x.spec.mesh x.frags p q with
          | some (fr, cs) =>
              (.ok ⟨fr, { x.spec with placements := [q] }⟩, cs)
          | none => (.error .unsupportedTransition, [])
    | _, _ => (.error .specMismatch, [])

/-- Modelled from the spec: a placement for the general multi-axis
`local_shape` computation over a multi-dimensional global shape:
`shardDim d` is Shard(d); Replicate and Partial leave extents unchanged. -/
inductive PlacementN where
  | shardDim (d : Nat)
  | replicate
  | psum
deriving DecidableEq, Repr

/-- Modelled from the spec: `DTensorSpec.local_shape` — the local fragment
shape at the given mesh coordinates.  `axes` pairs each mesh axis's size
with its placement, `coords` are the worker's coordinates, processed in
mesh-axis order.  A `shardDim d` axis of size `n` replaces the current
extent of tensor dimension `d` by the size of shard `coords[axis]` under
the even-with-remainder-to-front rule, cumulatively when `d` is sharded
across several mesh axes; Replicate and Partial axes leave the shape
unchanged. -/
def localShape (gs : List Nat) :
    List (Nat × PlacementN) → List Nat → List Nat
  | (n, .shardDim d) :: rest, i :: cs =>
      localShape (gs.set d (shardSize (gs.getD d 0) n i)) rest cs
  | (_, .replicate) :: rest, _ :: cs => localShape gs rest cs
  | (_, .psum) :: rest, _ :: cs => localShape gs rest cs
  | _, _ => gs

/-- All mesh coordinate tuples of a mesh with the given axis sizes, in
lexicographic order. -/
def allCoords : List Nat → List (List Nat)
  | [] => [[]]
  | n :: ns => ((List.range n).map fun i => (allCoords ns).map (i :: ·)).flatten

/-- C1: `needs_pad(rank, pad_idx)` returns true exactly when `pad_idx` is
nonzero and `rank >= pad_idx`, and returns false for every rank when
`pad_idx = 0`: under the remainder-to-front split rule the ranks whose
smaller fragments require padding are exactly the highest-indexed ones. -/
theorem needs_pad_iff (rank pad_idx : Int) :
    (needs_pad rank pad_idx = true ↔ pad_idx ≠ 0 ∧ rank ≥ pad_idx) ∧
    (pad_idx = 0 → needs_pad rank pad_idx = false) := by
  constructor
  · simp [needs_pad]
  · intro h
    simp [needs_pad, h]

theorem needs_pad_iff_witness :
    needs_pad 3 2 = true ∧ needs_pad 3 0 = false :=
  ⟨(needs_pad_iff 3 2).1.mpr (by decide), (needs_pad_iff 3 0).2 rfl⟩

/-- C8: `unwrap_local_tensor` projects a `DTensor` argument to its local
tensor fragment and `unwrap_schema` projects it to its spec, and both
return any non-`DTensor` argument unchanged. -/
theorem unwrap_cases :
    (∀ d, unwrap_local_tensor (.dt d) = .tens d.local_tensor) ∧
    (∀ d, unwrap_schema (.dt d) = .spec d.spec) ∧
    (∀ e : PyObj, (∀ d, e ≠ .dt d) →
      unwrap_local_tensor e = e ∧ unwrap_schema e = e) := by
  refine ⟨fun _ => rfl, fun _ => rfl, fun e he => ?_⟩
  cases e with
  | dt d => exact absurd rfl (he d)
  | tens t => exact ⟨rfl, rfl⟩
  | spec s => exact ⟨rfl, rfl⟩
  | obj v => exact ⟨rfl, rfl⟩

theorem unwrap_cases_witness :
    unwrap_local_tensor (.obj 7) = .obj 7 ∧ unwrap_schema (.obj 7) = .obj 7 :=
  unwrap_cases.2.2 (.obj 7) (fun _ h => PyObj.noConfusion h)

/-- C2: `wrap` turns a tensor result with its `DTensorSpec` into a single
`DTensor` whose local fragment is the result and whose mesh, placements
and size are taken from the spec; a list (resp. tuple) result with a list
(resp. tuple) of specs into a list (resp. tuple) of `DTensor`s built from
the corresponding elements; and returns a non-tensor result unchanged. -/
theorem wrap_cases :
    (∀ t s, wrap (.tensor t) (.dspec s) =
      .ok (.single ⟨t, ⟨s.mesh, s.placements, s.shape⟩, t.requires_grad⟩)) ∧
    (∀ ts ss, wrap (.rlist ts) (.slist ss) =
      .ok (.wlist ((List.zip ts ss).map fun p =>
        ⟨p.1, ⟨p.2.mesh, p.2.placements, p.2.shape⟩, false⟩))) ∧
    (∀ ts ss, wrap (.rtuple ts) (.stuple ss) =
      .ok (.wtuple ((List.zip ts ss).map fun p =>
        ⟨p.1, ⟨p.2.mesh, p.2.placements, p.2.shape⟩, false⟩))) ∧
    (∀ v sp, wrap (.nonTensor v) sp = .ok (.passthrough (.nonTensor v))) :=
  ⟨fun _ _ => rfl, fun _ _ => rfl, fun _ _ => rfl, fun _ _ => rfl⟩

/-- C9: `wrap` raises its AssertionError (constructing no DTensor) exactly
when the kinds of the result and of the spec disagree: a tensor result
without a `DTensorSpec` spec, a list result without a list spec, or a
tuple result without a tuple spec; in all other cases no error is
raised. -/
theorem wrap_error_iff (res : Res) (sp : OutSpec) :
    wrap res sp = .error .assertionError ↔
      ((∃ t, res = .tensor t) ∧ ∀ s, sp ≠ .dspec s) ∨
      ((∃ ts, res = .rlist ts) ∧ ∀ ss, sp ≠ .slist ss) ∨
      ((∃ ts, res = .rtuple ts) ∧ ∀ ss, sp ≠ .stuple ss) := by
  cases res <;> cases sp <;> simp [wrap]

/-- C10: on a list or tuple result with a matching-kind spec of a
different length, `wrap` pairs elements by `zip`, so the output has the
length of the shorter of the two and the trailing elements of the longer
one are silently dropped rather than causing an error. -/
theorem wrap_zip_truncates :
    (∀ ts ss ds, wrap (.rlist ts) (.slist ss) = .ok (.wlist ds) →
      ds.length = min ts.length ss.length) ∧
    (∀ ts ss ds, wrap (.rtuple ts) (.stuple ss) = .ok (.wtuple ds) →
      ds.length = min ts.length ss.length) := by
  constructor <;>
    · intro ts ss ds h
      simp only [wrap, Except.ok.injEq, WrapOut.wlist.injEq,
        WrapOut.wtuple.injEq] at h
      subst h
      simp only [List.length_map, List.length_zip]

theorem wrap_zip_truncates_witness :
    ([(⟨⟨[1], false⟩, ⟨1, [Placement.shard], 1⟩, false⟩ : DTensor)]).length =
      min 2 1 :=
  wrap_zip_truncates.1 [⟨[1], false⟩, ⟨[2], false⟩] [⟨1, [.shard], 1⟩] _ rfl

theorem sum_map_allCoords_cons (f : List Nat → Nat) (n : Nat) (ns : List Nat) :
    ((allCoords (n :: ns)).map f).sum =
      ((List.range n).map fun i =>
        ((allCoords ns).map fun c => f (i :: c)).sum).sum := by
  simp only [allCoords, List.map_flatten, List.sum_flatten, List.map_map]
  refine congrArg List.sum (List.map_congr_left fun i _ => ?_)
  simp only [Function.comp_apply, List.map_map]
  exact congrArg List.sum (List.map_congr_left fun c _ => rfl)

theorem localShape_nested_sum (ns : List Nat) : ∀ e : Nat,
    (∀ n ∈ ns, 0 < n) →
    (((allCoords ns).map fun c =>
      (localShape [e] (ns.map fun m => (m, PlacementN.shardDim 0)) c).getD 0
        0).sum) = e := by
  induction ns with
  | nil =>
      intro e h
      simp [allCoords, localShape]
  | cons n ns ih =>
      intro e h
      have hn : 0 < n := h n (List.mem_cons_self n ns)
      have hrest : ∀ m ∈ ns, 0 < m := fun m hm => h m (List.mem_cons_of_mem n hm)
      rw [sum_map_allCoords_cons]
      have key : ∀ i ∈ List.range n,
          ((allCoords ns).map fun c =>
            (localShape [e] ((n :: ns).map fun m => (m, PlacementN.shardDim 0))
              (i :: c)).getD 0 0).sum = shardSize e n i := by
        intro i _
        have hred : ∀ c : List Nat,
            localShape [e] ((n :: ns).map fun m => (m, PlacementN.shardDim 0))
                (i :: c) =
              localShape [shardSize e n i]
                (ns.map fun m => (m, PlacementN.shardDim 0)) c :=
          fun c => rfl
        simp only [hred]
        exact ih (shardSize e n i) hrest
      rw [List.map_congr_left key]
      exact sum_shardSize e n hn

/-- C3: summing the `local_shape` extents across all mesh coordinates of
the sharded axes reconstructs the global extent exactly, with no elements
lost or duplicated, zero-sized trailing fragments included; and in
Scenario A — mesh `[4]`, global shape `[10, 8]`, placement `Shard(0)` —
the per-rank local shapes are `[3,8]`, `[3,8]`, `[2,8]`, `[2,8]` in rank
order. -/
theorem localShape_reconstructs :
    (∀ (e : Nat) (ns : List Nat), (∀ n ∈ ns, 0 < n) →
      (((allCoords ns).map fun c =>
        (localShape [e] (ns.map fun m => (m, PlacementN.shardDim 0)) c).getD 0
          0).sum) = e) ∧
    ((allCoords [4]).map fun c =>
      localShape [10, 8] [(4, PlacementN.shardDim 0)] c) =
      [[3, 8], [3, 8], [2, 8], [2, 8]] :=
  ⟨fun e ns h => localShape_nested_sum ns e h, by decide⟩

theorem localShape_reconstructs_witness :
    (((allCoords [4]).map fun c =>
      (localShape [10] ([4].map fun m => (m, PlacementN.shardDim 0)) c).getD 0
        0).sum) = 10 :=
  localShape_reconstructs.1 10 [4] (by decide)

theorem redistribute_eq (x : DState) (p q : Placement)
    (hp : x.spec.placements = [p]) :
    redistribute x [q] =
      (if p = q then (.ok x, [])
       else
         match axTransition x.spec.mesh x.frags p q with
         | some (fr, cs) => (.ok ⟨fr, { x.spec with placements := [q] }⟩, cs)
         | none => (.error .unsupportedTransition, [])) := by
  unfold redistribute
  rw [hp]
  simp [DTensorSpec.meshRank]

theorem reassemble_shard (x : DState) (h : x.spec.placements = [.shard]) :
    reassemble x = some x.frags.flatten := by
  unfold reassemble
  rw [h]

theorem reassemble_psum (x : DState) (h : x.spec.placements = [.psum])
    (f : Frag) (rest : List Frag) (hfr : x.frags = f :: rest) :
    reassemble x = some (rest.foldl addT f) := by
  unfold reassemble
  rw [h, hfr]

theorem reassemble_replicate_eqv (x : DState)
    (h : x.spec.placements = [.replicate]) (v : Frag) (n : Nat) (hn : 0 < n)
    (hfr : x.frags = List.replicate n v) :
    reassemble x = some v := by
  unfold reassemble
  rw [h, hfr]
  cases n with
  | zero => omega
  | succ m =>
      rw [List.replicate_succ]
      simp [List.all_replicate]

theorem reassemble_replicate_inv (x : DState)
    (h : x.spec.placements = [.replicate]) (g : Frag)
    (hre : reassemble x = some g) :
    ∀ i, i < x.frags.length → x.frags.getD i [] = g := by
  cases hfr : x.frags with
  | nil =>
      intro i hi
      simp at hi
  | cons f rest =>
      have hx : reassemble x = if rest.all (· = f) then some f else none := by
        unfold reassemble
        rw [h, hfr]
      rw [hx] at hre
      cases hall : rest.all (· = f) with
      | false => rw [hall] at hre; simp at hre
      | true =>
          rw [hall] at hre
          simp only [if_true, Option.some.injEq] at hre
          rw [List.all_eq_true] at hall
          intro i hi
          cases i with
          | zero => simpa using hre
          | succ j =>
              simp only [List.length_cons] at hi
              have hj : j < rest.length := by omega
              rw [List.getD_cons_succ, List.getD_eq_getElem rest [] hj]
              have hm : rest[j] ∈ rest := List.getElem_mem hj
              have hef := hall rest[j] hm
              simp only [decide_eq_true_eq] at hef
              rw [hef]
              exact hre

theorem redistribute_mismatch_eq (x : DState) (qs : List Placement)
    (h : qs.length ≠ x.spec.meshRank) :
    redistribute x qs = (.error .specMismatch, []) := by
  unfold redistribute
  rw [if_pos h]

theorem redistribute_ok (x : DState) (qs : List Placement) (y : DState)
    (cs : List Collective) (hwf : x.wf)
    (h : redistribute x qs = (.ok y, cs)) :
    y.spec.placements = qs ∧ y.spec.mesh = x.spec.mesh ∧
      y.spec.shape = x.spec.shape ∧ y.wf ∧
      ∀ g, reassemble x = some g → reassemble y = some g := by
  obtain ⟨hlen, hpl, hpos⟩ := hwf
  obtain ⟨p, hp⟩ := List.length_eq_one.mp hpl
  rcases qs with _ | ⟨q, qs'⟩
  · rw [redistribute_mismatch_eq x []
      (by simp only [DTensorSpec.meshRank, List.length_nil]; omega)] at h
    simp at h
  rcases qs' with _ | ⟨q2, qs2⟩
  case cons.cons =>
    rw [redistribute_mismatch_eq x (q :: q2 :: qs2)
      (by simp only [DTensorSpec.meshRank, List.length_cons]; omega)] at h
    simp at h
  rw [redistribute_eq x p q hp] at h
  by_cases hpq : p = q
  · rw [if_pos hpq] at h
    simp only [Prod.mk.injEq, Except.ok.injEq] at h
    obtain ⟨hxy, hcs⟩ := h
    subst hxy
    refine ⟨?_, rfl, rfl, ⟨hlen, hpl, hpos⟩, fun g hg => hg⟩
    rw [hp, hpq]
  · rw [if_neg hpq] at h
    cases p with
    | shard =>
        cases q with
        | shard => exact absurd rfl hpq
        | psum => simp [axTransition] at h
        | replicate =>
            simp only [axTransition] at h
            simp only [Prod.mk.injEq, Except.ok.injEq] at h
            obtain ⟨hy, hcs⟩ := h
            subst hy
            refine ⟨rfl, rfl, rfl, ⟨by simp, rfl, hpos⟩, ?_⟩
            intro g hg
            rw [reassemble_shard x hp] at hg
            injection hg with hg2
            exact reassemble_replicate_eqv _ rfl g x.spec.mesh hpos
              (by rw [hg2])
    | replicate =>
        cases q with
        | replicate => exact absurd rfl hpq
        | psum => simp [axTransition] at h
        | shard =>
            simp only [axTransition] at h
            simp only [Prod.mk.injEq, Except.ok.injEq] at h
            obtain ⟨hy, hcs⟩ := h
            subst hy
            refine ⟨rfl, rfl, rfl, ⟨by simp, rfl, hpos⟩, ?_⟩
            intro g hg
            have hinv := reassemble_replicate_inv x hp g hg
            have hmap : ((List.range x.spec.mesh).map fun i =>
                shardSlice (x.frags.getD i []) x.spec.mesh i) =
                (List.range x.spec.mesh).map (shardSlice g x.spec.mesh) := by
              refine List.map_congr_left fun i hi => ?_
              rw [hinv i (by rw [hlen]; exact List.mem_range.mp hi)]
            rw [reassemble_shard _ rfl]
            rw [hmap, flatten_shardSlice g x.spec.mesh hpos]
    | psum =>
        cases q with
        | psum => exact absurd rfl hpq
        | replicate =>
            simp only [axTransition] at h
            simp only [Prod.mk.injEq, Except.ok.injEq] at h
            obtain ⟨hy, hcs⟩ := h
            subst hy
            refine ⟨rfl, rfl, rfl, ⟨by simp, rfl, hpos⟩, ?_⟩
            intro g hg
            cases hfr : x.frags with
            | nil => rw [hfr] at hlen; simp at hlen; omega
            | cons f rest =>
                rw [reassemble_psum x hp f rest hfr] at hg
                injection hg with hg2
                refine reassemble_replicate_eqv _ rfl g x.spec.mesh hpos ?_
                show List.replicate x.spec.mesh (sumFrags (f :: rest)) =
                  List.replicate x.spec.mesh g
                rw [show sumFrags (f :: rest) = rest.foldl addT f from rfl,
                  hg2]
        | shard =>
            simp only [axTransition] at h
            simp only [Prod.mk.injEq, Except.ok.injEq] at h
            obtain ⟨hy, hcs⟩ := h
            subst hy
            refine ⟨rfl, rfl, rfl, ⟨by simp, rfl, hpos⟩, ?_⟩
            intro g hg
            cases hfr : x.frags with
            | nil => rw [hfr] at hlen; simp at hlen; omega
            | cons f rest =>
                rw [reassemble_psum x hp f rest hfr] at hg
                injection hg with hg2
                rw [reassemble_shard _ rfl]
                show some (((List.range x.spec.mesh).map
                    (shardSlice (sumFrags (f :: rest)) x.spec.mesh)).flatten) =
                  some g
                rw [show sumFrags (f :: rest) = rest.foldl addT f from rfl,
                  hg2, flatten_shardSlice g x.spec.mesh hpos]

theorem axTransition_total (n : Nat) (frags : List Frag) (p q : Placement)
    (hq : q ≠ .psum) (hpq : p ≠ q) :
    ∃ fr cs, axTransition n frags p q = some (fr, cs) := by
  cases p <;> cases q <;>
    first
      | exact absurd rfl hpq
      | exact absurd rfl hq
      | exact ⟨_, _, rfl⟩

/-- C4: a successful `redistribute(x, target_placements)` returns a
distributed tensor whose placements equal the target, whose global shape
and mesh are unchanged, and whose local fragments, logically reassembled
across all workers under the target placements, equal the reassembly of
x's fragments under x's original placements. -/
theorem redistribute_contract (x : DState) (qs : List Placement) (y : DState)
    (cs : List Collective) (g : Frag) (hwf : x.wf)
    (hre : reassemble x = some g)
    (h : redistribute x qs = (.ok y, cs)) :
    y.spec.placements = qs ∧ y.spec.mesh = x.spec.mesh ∧
      y.spec.shape = x.spec.shape ∧ reassemble y = some g := by
  obtain ⟨h1, h2, h3, -, h5⟩ := redistribute_ok x qs y cs hwf h
  exact ⟨h1, h2, h3, h5 g hre⟩

theorem redistribute_contract_witness :
    (⟨[[1, 2], [1, 2]], 2, [Placement.replicate], 2⟩ : DState).spec.placements
        = [Placement.replicate] ∧
      (⟨[[1, 2], [1, 2]], 2, [Placement.replicate], 2⟩ :
        DState).spec.mesh =
        (⟨[[1], [2]], 2, [Placement.shard], 2⟩ : DState).spec.mesh ∧
      (⟨[[1, 2], [1, 2]], 2, [Placement.replicate], 2⟩ :
        DState).spec.shape =
        (⟨[[1], [2]], 2, [Placement.shard], 2⟩ : DState).spec.shape ∧
      reassemble ⟨[[1, 2], [1, 2]], 2, [Placement.replicate], 2⟩ =
        some [1, 2] :=
  redistribute_contract ⟨[[1], [2]], 2, [Placement.shard], 2⟩
    [Placement.replicate] ⟨[[1, 2], [1, 2]], 2, [Placement.replicate], 2⟩
    [Collective.allGather] [1, 2] ⟨rfl, rfl, by decide⟩ rfl rfl

/-- C5: redistributing a distributed tensor to its own current placements
is a no-op: the result is value-equal to the input (same fragments, same
spec) and no collective communication is issued. -/
theorem redistribute_noop (x : DState) (hwf : x.wf) :
    redistribute x x.spec.placements = (.ok x, []) := by
  obtain ⟨-, hpl, -⟩ := hwf
  obtain ⟨p, hp⟩ := List.length_eq_one.mp hpl
  rw [hp, redistribute_eq x p p hp, if_pos rfl]

theorem redistribute_noop_witness :
    redistribute ⟨[[1], [2]], 2, [Placement.shard], 2⟩
      (⟨[[1], [2]], 2, [Placement.shard], 2⟩ : DState).spec.placements =
      (.ok ⟨[[1], [2]], 2, [Placement.shard], 2⟩, []) :=
  redistribute_noop ⟨[[1], [2]], 2, [Placement.shard], 2⟩
    ⟨rfl, rfl, by decide⟩

/-- C6: for a distributed tensor whose original placements P1 contain no
Partial placement, redistributing to any accepted target P2 and back to P1
yields a tensor logically equal to the original: same spec, and fragments
reassembling to the same logical tensor. -/
theorem redistribute_round_trip (x y : DState) (p2 : List Placement)
    (cs : List Collective) (g : Frag) (hwf : x.wf)
    (hre : reassemble x = some g)
    (hnp : Placement.psum ∉ x.spec.placements)
    (h : redistribute x p2 = (.ok y, cs)) :
    ∃ z cs2, redistribute y x.spec.placements = (.ok z, cs2) ∧
      z.spec = x.spec ∧ reassemble z = some g := by
  obtain ⟨hlen, hpl, hpos⟩ := hwf
  obtain ⟨p, hp⟩ := List.length_eq_one.mp hpl
  have hpne : p ≠ .psum := by
    intro hcon
    rw [hp, hcon] at hnp
    simp at hnp
  obtain ⟨hy1, hy2, hy3, hywf, hy5⟩ :=
    redistribute_ok x p2 y cs ⟨hlen, hpl, hpos⟩ h
  have hgy : reassemble y = some g := hy5 g hre
  obtain ⟨hylen, hypl, hypos⟩ := hywf
  obtain ⟨q, hq⟩ := List.length_eq_one.mp hypl
  rw [hp]
  by_cases hqp : q = p
  · refine ⟨y, [], ?_, ?_, hgy⟩
    · rw [redistribute_eq y q p hq, if_pos hqp]
    · have heta : y.spec = ⟨y.spec.mesh, y.spec.placements, y.spec.shape⟩ :=
        rfl
      rw [heta, hy2, hy3, hq, hqp, ← hp]
  · obtain ⟨fr, cs2, htr⟩ := axTransition_total y.spec.mesh y.frags q p
      hpne hqp
    have h2 : redistribute y [p] =
        (.ok ⟨fr, { y.spec with placements := [p] }⟩, cs2) := by
      rw [redistribute_eq y q p hq, if_neg hqp, htr]
    obtain ⟨-, -, -, -, hz5⟩ :=
      redistribute_ok y [p] _ cs2 ⟨hylen, hypl, hypos⟩ h2
    refine ⟨⟨fr, { y.spec with placements := [p] }⟩, cs2, h2, ?_,
      hz5 g hgy⟩
    show (⟨y.spec.mesh, [p], y.spec.shape⟩ : DTensorSpec) = x.spec
    rw [hy2, hy3, ← hp]

theorem redistribute_round_trip_witness :
    ∃ z cs2,
      redistribute ⟨[[1, 2], [1, 2]], 2, [Placement.replicate], 2⟩
        (⟨[[1], [2]], 2, [Placement.shard], 2⟩ : DState).spec.placements =
        (.ok z, cs2) ∧
      z.spec = (⟨[[1], [2]], 2, [Placement.shard], 2⟩ : DState).spec ∧
      reassemble z = some [1, 2] :=
  redistribute_round_trip ⟨[[1], [2]], 2, [Placement.shard], 2⟩
    ⟨[[1, 2], [1, 2]], 2, [Placement.replicate], 2⟩ [Placement.replicate]
    [Collective.allGather] [1, 2] ⟨rfl, rfl, by decide⟩ rfl (by decide) rfl

/-- C7: requesting redistribution to a target placement list whose length
differs from the mesh rank fails with `SpecMismatchError` before any
communication: the error is returned and the list of issued collectives is
empty. -/
theorem redistribute_fail_fast (x : DState) (qs : List Placement)
    (h : qs.length ≠ x.spec.meshRank) :
    redistribute x qs = (.error .specMismatch, []) :=
  redistribute_mismatch_eq x qs h

theorem redistribute_fail_fast_witness :
    redistribute ⟨[[1], [2]], 2, [Placement.shard], 2⟩ [] =
      (.error .specMismatch, []) :=
  redistribute_fail_fast ⟨[[1], [2]], 2, [Placement.shard], 2⟩ []
    (by decide)
